import Mathlib

/-!
Verification of `torchrec/datasets/scripts/nvt/split_binary_dataset.py`.

The script converts a fixed-record binary dataset (interleaved label,
numerical and categorical 32-bit slots) into one binary output stream per
logical field.  We embed the script shallowly: a file is a list of bytes
(`List Nat`), the numpy buffer operations become executable list
functions, and the fallible operations (`np.frombuffer`, `reshape`)
return `Except String`.  The float32 → float16 narrowing performed by
numpy is kept abstract as a parameter `f16 : Nat → Nat` mapping a 32-bit
bit pattern to a 16-bit bit pattern; no claim depends on its numeric
behaviour, only on it being a fixed function producing two bytes.
-/

namespace SplitBinaryDataset

/-- Categorical output widths considered by the script: `types = (np.int8,
np.int16, np.int32)` in `get_categorical_feature_type`. -/
inductive CatType where
  | i8
  | i16
  | i32
deriving Repr, DecidableEq

/-- Value of `np.iinfo(t).max` for each of the three types. -/
def CatType.max : CatType → Nat
  | .i8 => 127
  | .i16 => 32767
  | .i32 => 2147483647

/-- Byte width of each categorical type (`np.dtype(t).itemsize`). -/
def CatType.nbytes : CatType → Nat
  | .i8 => 1
  | .i16 => 2
  | .i32 => 4

/-- Translation of `get_categorical_feature_type` (lines 23-34): the loop
`for numpy_type in types: if size < np.iinfo(numpy_type).max: return
numpy_type` unrolled over the three-element tuple, with the final
`raise RuntimeError` becoming an `Except.error`. -/
def get_categorical_feature_type (size : Nat) : Except String CatType :=
  if size < CatType.max .i8 then .ok .i8
  else if size < CatType.max .i16 then .ok .i16
  else if size < CatType.max .i32 then .ok .i32
  else .error "Categorical feature is too big for defined types"

/-- Evaluation of `[get_categorical_feature_type(s) for s in sizes]`
(lines 53-55): the comprehension evaluates left to right and the first
raised error propagates. -/
def mapExcept (f : Nat → Except String CatType) : List Nat → Except String (List CatType)
  | [] => .ok []
  | c :: rest =>
    match f c with
    | .error e => .error e
    | .ok t =>
      match mapExcept f rest with
      | .error e => .error e
      | .ok ts => .ok (t :: ts)

/-- Boolean check used below and in witnesses: whether an `Except`
computation succeeded. -/
def isOkExc {ε α : Type} : Except ε α → Bool
  | .ok _ => true
  | .error _ => false

/-- Little-endian 32-bit word assembled from four bytes, as
`np.frombuffer(..., dtype=np.int32)` does on a little-endian host.  We
keep the (nonnegative) bit pattern; the signed view is `toSigned 32`. -/
def wordLE (b0 b1 b2 b3 : Nat) : Nat :=
  b0 + 256 * b1 + 65536 * b2 + 16777216 * b3

/-- Byte stream reinterpreted as int32 little-endian words, four bytes per
word (`np.frombuffer(raw, dtype=np.int32)` after its length check). -/
def bytesToWords : List Nat → List Nat
  | b0 :: b1 :: b2 :: b3 :: rest => wordLE b0 b1 b2 b3 :: bytesToWords rest
  | _ => []

/-- Rows of width `w` cut from a flat element list; the row count is
passed as fuel so the definition is structural.  Used to model
`raw_data.reshape(-1, record_width)` after its divisibility check. -/
def reshapeRowsAux (w : Nat) : Nat → List Nat → List (List Nat)
  | 0, _ => []
  | k + 1, xs => xs.take w :: reshapeRowsAux w k (xs.drop w)

/-- Translation of `raw_data.reshape(-1, record_width)` on a list whose
length is a multiple of `w`: `length / w` rows of `w` elements. -/
def reshapeRows (w : Nat) (xs : List Nat) : List (List Nat) :=
  reshapeRowsAux w (xs.length / w) xs

/-- Label byte for one record: `batch_data[:, 0].astype(np.bool)` stores
one byte per record, 1 for a nonzero raw value and 0 otherwise. -/
def boolByte (p : Nat) : Nat :=
  if p = 0 then 0 else 1

/-- Two little-endian bytes of the 16-bit pattern produced by the
float32 → float16 narrowing `f16` applied to a 32-bit slot. -/
def f16bytes (f16 : Nat → Nat) (p : Nat) : List Nat :=
  [f16 p % 256, f16 p / 256 % 256]

/-- Bytes written for one categorical slot: `astype` to a narrower signed
integer type is a truncating cast, so the emitted bytes are the low
`nbytes` little-endian bytes of the 32-bit pattern. -/
def castBytes : CatType → Nat → List Nat
  | .i8, p => [p % 256]
  | .i16, p => [p % 256, p / 256 % 256]
  | .i32, p => [p % 256, p / 256 % 256, p / 65536 % 256, p / 16777216 % 256]

/-- Bytes appended to `label.bin` for one batch (lines 85-86). -/
def batchLabel (rows : List (List Nat)) : List Nat :=
  rows.map (fun row => boolByte (row.headD 0))

/-- Bytes appended to `numerical.bin` for one batch (lines 80-83):
columns `[1, 1 + numInt)` of each row, narrowed to float16, row-major. -/
def batchNumerical (nI : Nat) (f16 : Nat → Nat) (rows : List (List Nat)) : List Nat :=
  rows.flatMap (fun row => ((row.drop 1).take nI).flatMap (f16bytes f16))

/-- Bytes appended to `cat_{i}.bin` for one batch (lines 88-93): column
`cat_offset + i` of each row, cast to the selected width, row-major. -/
def batchCats (nI : Nat) (cts : List CatType) (rows : List (List Nat)) : List (List Nat) :=
  cts.enum.map (fun it => rows.flatMap (fun row => castBytes it.2 (row.getD (1 + nI + it.1) 0)))

/-- Contents written to the output streams: `label.bin`, `numerical.bin`
and one entry per `cat_{i}.bin`. -/
structure SplitOutput where
  label : List Nat
  numerical : List Nat
  cats : List (List Nat)
deriving Repr, DecidableEq

/-- Stream contents produced from one list of decoded rows. -/
def encodeRows (nI : Nat) (f16 : Nat → Nat) (cts : List CatType) (rows : List (List Nat)) :
    SplitOutput :=
  ⟨batchLabel rows, batchNumerical nI f16 rows, batchCats nI cts rows⟩

/-- Translation of the per-batch body (lines 75-93).  `np.frombuffer`
fails unless the buffer length is a multiple of the 4-byte element size;
`reshape(-1, record_width)` fails unless the element count is a multiple
of `record_width`; otherwise the three column families are encoded. -/
def processBatch (nI : Nat) (f16 : Nat → Nat) (cts : List CatType) (chunk : List Nat) :
    Except String SplitOutput :=
  if chunk.length % 4 ≠ 0 then
    .error "buffer size must be a multiple of element size"
  else if (bytesToWords chunk).length % (1 + nI + cts.length) ≠ 0 then
    .error "cannot reshape array"
  else
    .ok (encodeRows nI f16 cts (reshapeRows (1 + nI + cts.length) (bytesToWords chunk)))

/-- Concatenation of the stream contents of two successive batches. -/
def SplitOutput.app (a b : SplitOutput) : SplitOutput :=
  ⟨a.label ++ b.label, a.numerical ++ b.numerical, List.zipWith (· ++ ·) a.cats b.cats⟩

/-- Stream contents right after stream setup: all files freshly truncated
and empty, one categorical stream per feature. -/
def emptyOutput (K : Nat) : SplitOutput :=
  ⟨[], [], List.replicate K []⟩

/-- Translation of the batch loop (lines 74-93).  Each iteration reads
`chunkBytes = bytes_per_entry * batch_size` bytes from the current file
position (a short read at end of file returns what remains), processes
the chunk and appends to the streams; the first raised error propagates. -/
def splitLoop (nI : Nat) (f16 : Nat → Nat) (cts : List CatType) (chunkBytes : Nat)
    (file : List Nat) : Nat → Nat → SplitOutput → Except String SplitOutput
  | 0, _, acc => .ok acc
  | k + 1, pos, acc =>
    match processBatch nI f16 cts ((file.drop pos).take chunkBytes) with
    | .error e => .error e
    | .ok out =>
      splitLoop nI f16 cts chunkBytes file k
        (pos + ((file.drop pos).take chunkBytes).length) (acc.app out)

/-- Value of `record_width` (lines 44-46): label + numerical +
categorical, where `nI = len(DEFAULT_INT_NAMES)` and `K` is the number of
categorical features. -/
def recordWidth (nI K : Nat) : Nat :=
  1 + nI + K

/-- Ceiling division, the exact value of `int(math.ceil(a / b))` for a
positive divisor. -/
def ceilDiv (a b : Nat) : Nat :=
  (a + b - 1) / b

/-- Translation of `split_binary_file` (lines 37-96) at the data level.
`source_data_type` is the default `"int32"`, so `bytes_per_feature = 4`.
`batches_num = ceil((total_size // bytes_per_entry) / batch_size)`
(line 51); the categorical types are computed (lines 53-55) before any
stream is touched; then the batch loop runs from position 0 starting
with freshly truncated output files. -/
def split_binary_file (nI : Nat) (f16 : Nat → Nat) (catSizes : List Nat)
    (batch_size : Nat) (file : List Nat) : Except String SplitOutput :=
  let record_width := recordWidth nI catSizes.length
  let bytes_per_entry := record_width * 4
  let batches_num := ceilDiv (file.length / bytes_per_entry) batch_size
  match mapExcept get_categorical_feature_type catSizes with
  | .error e => .error e
  | .ok cts =>
    splitLoop nI f16 cts (bytes_per_entry * batch_size) file batches_num 0
      (emptyOutput catSizes.length)

/-- Streams opened by `split_binary_file`: the input file plus one output
stream per logical field. -/
inductive StreamName where
  | input
  | numerical
  | label
  | cat (i : Nat)
deriving Repr, DecidableEq

/-- Resource-relevant steps of the try-block body (lines 58-93): a stream
acquisition, or one unit of other work (a batch iteration). -/
inductive Step where
  | openStream (s : StreamName)
  | batchWork
deriving Repr, DecidableEq

/-- Resource events observable from outside one call. -/
inductive Ev where
  | opened (s : StreamName)
  | closed (s : StreamName)
  | raised
deriving Repr, DecidableEq

/-- Steps of the try-block body in source order: open the input (line 59),
`numerical.bin` (62), `label.bin` (65), each `cat_{i}.bin` in index order
(69-72), then one unit of work per batch (74-93). -/
def bodySteps (K batches : Nat) : List Step :=
  [.openStream .input, .openStream .numerical, .openStream .label]
    ++ (List.range K).map (fun i => .openStream (.cat i))
    ++ (List.range batches).map (fun _ => .batchWork)

/-- Execution of the try body under a failure oracle (`fail idx` means the
idx-th step raises before producing its effect), followed by the finally
block, which closes every stream recorded in `file_streams` (lines 94-96);
a pending exception propagates after the closes. -/
def runBody (fail : Nat → Bool) : List Step → Nat → List StreamName → List Ev
  | [], _, streams => streams.map Ev.closed
  | st :: rest, idx, streams =>
    if fail idx then streams.map Ev.closed ++ [Ev.raised]
    else
      match st with
      | .openStream s => Ev.opened s :: runBody fail rest (idx + 1) (streams ++ [s])
      | .batchWork => runBody fail rest (idx + 1) streams

/-- Resource trace of `split_binary_file`: the categorical feature types
are computed (lines 53-55) before the try block is entered, so an
unrepresentable cardinality raises before any stream is opened or any
output file is created. -/
def split_binary_file_streams (catSizes : List Nat) (batches : Nat) (fail : Nat → Bool) :
    List Ev :=
  match mapExcept get_categorical_feature_type catSizes with
  | .error _ => [Ev.raised]
  | .ok cts => runBody fail (bodySteps cts.length batches) 0 []

/-- Read requests issued by the batch loop: each iteration calls
`input_data_f.read(bytes_per_entry * batch_size)` (line 76) and receives
at most that many bytes, recorded as (requested, returned-length) pairs;
an error aborts the remaining batches, as in `splitLoop`. -/
def splitLoopReads (nI : Nat) (f16 : Nat → Nat) (cts : List CatType) (chunkBytes : Nat)
    (file : List Nat) : Nat → Nat → List (Nat × Nat)
  | 0, _ => []
  | k + 1, pos =>
    (chunkBytes, ((file.drop pos).take chunkBytes).length) ::
      match processBatch nI f16 cts ((file.drop pos).take chunkBytes) with
      | .error _ => []
      | .ok _ =>
        splitLoopReads nI f16 cts chunkBytes file k
          (pos + ((file.drop pos).take chunkBytes).length)

/-- Read trace of one `split_binary_file` call. -/
def split_binary_file_reads (nI : Nat) (f16 : Nat → Nat) (catSizes : List Nat)
    (batch_size : Nat) (file : List Nat) : List (Nat × Nat) :=
  let bytes_per_entry := recordWidth nI catSizes.length * 4
  match mapExcept get_categorical_feature_type catSizes with
  | .error _ => []
  | .ok cts =>
    splitLoopReads nI f16 cts (bytes_per_entry * batch_size) file
      (ceilDiv (file.length / bytes_per_entry) batch_size) 0

/-- Translation of `split_dataset` (lines 99-125): the three partitions
are processed in source order test, train, validation, each through
`split_binary_file` with the shared `NUM_EMBEDDINGS_PER_FEATURE` schema;
an exception from one call propagates and the remaining calls never run.
The directory tree is abstracted as a map from file name to contents. -/
def split_dataset (nI : Nat) (f16 : Nat → Nat) (num_embeddings_per_feature : List Nat)
    (batch_size : Nat) (files : String → List Nat) :
    Except String (SplitOutput × SplitOutput × SplitOutput) :=
  match split_binary_file nI f16 num_embeddings_per_feature batch_size
      (files "test_data.bin") with
  | .error e => .error e
  | .ok test_out =>
    match split_binary_file nI f16 num_embeddings_per_feature batch_size
        (files "train_data.bin") with
    | .error e => .error e
    | .ok train_out =>
      match split_binary_file nI f16 num_embeddings_per_feature batch_size
          (files "validation_data.bin") with
      | .error e => .error e
      | .ok val_out => .ok (test_out, train_out, val_out)

/-- Signed two's-complement reading of a `w`-bit pattern. -/
def toSigned (w : Nat) (p : Nat) : Int :=
  if p < 2 ^ (w - 1) then (p : Int) else (p : Int) - 2 ^ w

/-- Little-endian numeric value of a byte list. -/
def leValue : List Nat → Nat
  | [] => 0
  | b :: rest => b + 256 * leValue rest

/-- Reference stream contents for a file whose first `N` records are
whole: those records decoded row by row, trailing bytes ignored. -/
def refOutput (nI : Nat) (f16 : Nat → Nat) (cts : List CatType) (N : Nat)
    (file : List Nat) : SplitOutput :=
  encodeRows nI f16 cts
    (reshapeRowsAux (recordWidth nI cts.length) N
      (bytesToWords (file.take (N * (recordWidth nI cts.length * 4)))))

/-! Lemmas about the byte-level decoding helpers. -/

theorem bytesToWords_length : ∀ a : List Nat, (bytesToWords a).length = a.length / 4
  | [] => rfl
  | [_] => by simp [bytesToWords]
  | [_, _] => by simp [bytesToWords]
  | [_, _, _] => by simp [bytesToWords]
  | _ :: _ :: _ :: _ :: rest => by
    simp only [bytesToWords, List.length_cons, bytesToWords_length rest]
    omega

theorem bytesToWords_append : ∀ a b : List Nat, a.length % 4 = 0 →
    bytesToWords (a ++ b) = bytesToWords a ++ bytesToWords b
  | [], _, _ => rfl
  | [_], _, h => by simp at h
  | [_, _], _, h => by simp at h
  | [_, _, _], _, h => by simp at h
  | x0 :: x1 :: x2 :: x3 :: rest, b, h => by
    have ih := bytesToWords_append rest b (by simp at h; omega)
    show wordLE x0 x1 x2 x3 :: bytesToWords (rest ++ b) =
      wordLE x0 x1 x2 x3 :: bytesToWords rest ++ bytesToWords b
    rw [ih]
    rfl

theorem reshapeRowsAux_length (w : Nat) : ∀ (k : Nat) (xs : List Nat),
    (reshapeRowsAux w k xs).length = k
  | 0, _ => rfl
  | k + 1, xs => by
    simp only [reshapeRowsAux, List.length_cons, reshapeRowsAux_length w k]

theorem reshapeRowsAux_append (w : Nat) : ∀ (m n : Nat) (a b : List Nat),
    a.length = m * w →
    reshapeRowsAux w (m + n) (a ++ b) = reshapeRowsAux w m a ++ reshapeRowsAux w n b
  | 0, n, a, b, ha => by
    have hnil : a = [] := List.eq_nil_of_length_eq_zero (by simpa using ha)
    subst hnil
    simp [reshapeRowsAux]
  | m + 1, n, a, b, ha => by
    have ha2 : a.length = m * w + w := by rw [ha]; ring
    have hw : w ≤ a.length := by omega
    rw [show m + 1 + n = (m + n) + 1 from by omega]
    simp only [reshapeRowsAux]
    rw [List.take_append_of_le_length hw, List.drop_append_of_le_length hw,
      reshapeRowsAux_append w m n (a.drop w) b (by simp [ha2]), List.cons_append]

theorem reshapeRowsAux_row_length (w : Nat) : ∀ (k : Nat) (xs : List Nat),
    xs.length = k * w → ∀ row ∈ reshapeRowsAux w k xs, row.length = w
  | 0, _, _, _, hrow => by simp [reshapeRowsAux] at hrow
  | k + 1, xs, hxs, row, hrow => by
    have hxs2 : xs.length = k * w + w := by rw [hxs]; ring
    rcases List.mem_cons.mp hrow with h | h
    · subst h
      rw [List.length_take]
      omega
    · exact reshapeRowsAux_row_length w k (xs.drop w) (by simp [hxs2]) row h

/-! Lemmas about the stream-content algebra. -/

theorem zipWith_append_map {α β : Type} (l : List α) (f g : α → List β) :
    List.zipWith (fun x y => x ++ y) (l.map f) (l.map g) = l.map fun x => f x ++ g x := by
  induction l with
  | nil => rfl
  | cons x xs ih => simp [ih]

theorem zipWith_append_assoc : ∀ (l1 l2 l3 : List (List Nat)),
    List.zipWith (fun x y => x ++ y) (List.zipWith (fun x y => x ++ y) l1 l2) l3 =
      List.zipWith (fun x y => x ++ y) l1 (List.zipWith (fun x y => x ++ y) l2 l3)
  | [], _, _ => rfl
  | _ :: _, [], _ => rfl
  | _ :: _, _ :: _, [] => rfl
  | a :: l1, b :: l2, c :: l3 => by
    simp only [List.zipWith, List.append_assoc]
    rw [zipWith_append_assoc l1 l2 l3]

theorem zipWith_append_replicate_nil (l : List (List Nat)) :
    List.zipWith (fun x y => x ++ y) l (List.replicate l.length []) = l := by
  induction l with
  | nil => rfl
  | cons x xs ih => simp only [List.length_cons, List.replicate, List.zipWith, ih, List.append_nil]

theorem replicate_nil_zipWith_append (l : List (List Nat)) :
    List.zipWith (fun x y => x ++ y) (List.replicate l.length []) l = l := by
  induction l with
  | nil => rfl
  | cons x xs ih => simp only [List.length_cons, List.replicate, List.zipWith, ih, List.nil_append]

theorem app_cats_length (a b : SplitOutput) :
    (a.app b).cats.length = min a.cats.length b.cats.length := by
  simp [SplitOutput.app]

theorem app_assoc (a b c : SplitOutput) : (a.app b).app c = a.app (b.app c) := by
  simp only [SplitOutput.app]
  rw [List.append_assoc, List.append_assoc]
  congr 1
  exact zipWith_append_assoc a.cats b.cats c.cats

theorem batchCats_append (nI : Nat) (cts : List CatType) (r1 r2 : List (List Nat)) :
    batchCats nI cts (r1 ++ r2) =
      List.zipWith (fun x y => x ++ y) (batchCats nI cts r1) (batchCats nI cts r2) := by
  simp only [batchCats, zipWith_append_map, List.flatMap_append]

theorem encodeRows_append (nI : Nat) (f16 : Nat → Nat) (cts : List CatType)
    (r1 r2 : List (List Nat)) :
    encodeRows nI f16 cts (r1 ++ r2) =
      (encodeRows nI f16 cts r1).app (encodeRows nI f16 cts r2) := by
  simp only [encodeRows, SplitOutput.app, batchLabel, batchNumerical, List.map_append,
    List.flatMap_append, batchCats_append]

theorem encodeRows_cats_length (nI : Nat) (f16 : Nat → Nat) (cts : List CatType)
    (rows : List (List Nat)) : (encodeRows nI f16 cts rows).cats.length = cts.length := by
  simp [encodeRows, batchCats]

theorem batchCats_nil (nI : Nat) (cts : List CatType) :
    batchCats nI cts [] = List.replicate cts.length [] := by
  simp [batchCats, List.map_const']

theorem app_encodeRows_nil (nI : Nat) (f16 : Nat → Nat) (cts : List CatType) (a : SplitOutput)
    (ha : a.cats.length = cts.length) : a.app (encodeRows nI f16 cts []) = a := by
  cases a with
  | mk lab num cats =>
    simp only [SplitOutput.app, encodeRows, batchLabel, batchNumerical, List.map_nil,
      List.flatMap_nil, List.append_nil, batchCats_nil]
    simp only at ha
    rw [← ha, zipWith_append_replicate_nil]

theorem emptyOutput_app (b : SplitOutput) (K : Nat) (hb : b.cats.length = K) :
    (emptyOutput K).app b = b := by
  cases b with
  | mk lab num cats =>
    simp only [SplitOutput.app, emptyOutput, List.nil_append]
    simp only at hb
    rw [← hb, replicate_nil_zipWith_append]

/-! Lemmas about the schema check and the batch body. -/

theorem mapExcept_length (f : Nat → Except String CatType) :
    ∀ (l : List Nat) (ts : List CatType), mapExcept f l = .ok ts → ts.length = l.length := by
  intro l
  induction l with
  | nil =>
    intro ts h
    simp only [mapExcept, Except.ok.injEq] at h
    subst h
    rfl
  | cons c rest ih =>
    intro ts h
    simp only [mapExcept] at h
    cases hfc : f c with
    | error e => rw [hfc] at h; exact absurd h (by simp)
    | ok t =>
      rw [hfc] at h
      cases hrest : mapExcept f rest with
      | error e => rw [hrest] at h; exact absurd h (by simp)
      | ok ts2 =>
        rw [hrest] at h
        simp only [Except.ok.injEq] at h
        subst h
        simp [ih ts2 hrest]

theorem get_categorical_feature_type_big (c : Nat) (h : 2147483647 ≤ c) :
    get_categorical_feature_type c =
      .error "Categorical feature is too big for defined types" := by
  unfold get_categorical_feature_type
  rw [if_neg (by simp only [CatType.max]; omega), if_neg (by simp only [CatType.max]; omega),
    if_neg (by simp only [CatType.max]; omega)]

theorem mapExcept_error_of_big : ∀ (l : List Nat), (∃ c ∈ l, 2147483647 ≤ c) →
    isOkExc (mapExcept get_categorical_feature_type l) = false := by
  intro l
  induction l with
  | nil => rintro ⟨c, hc, -⟩; cases hc
  | cons a rest ih =>
    rintro ⟨c, hc, hbig⟩
    simp only [mapExcept]
    rcases List.mem_cons.mp hc with h | h
    · subst h
      rw [get_categorical_feature_type_big c hbig]
      rfl
    · cases hfc : get_categorical_feature_type a with
      | error e => rfl
      | ok t =>
        have hfail := ih ⟨c, h, hbig⟩
        cases hrest : mapExcept get_categorical_feature_type rest with
        | error e => rfl
        | ok ts => rw [hrest] at hfail; exact absurd hfail (by simp [isOkExc])

theorem flatMap_length_const {α : Type} (f : α → List Nat) (c : Nat) :
    ∀ (l : List α), (∀ x ∈ l, (f x).length = c) → (l.flatMap f).length = l.length * c := by
  intro l
  induction l with
  | nil => intro _; simp
  | cons x xs ih =>
    intro h
    simp only [List.flatMap_cons, List.length_append, List.length_cons]
    rw [h x (by simp), ih (fun y hy => h y (by simp [hy]))]
    ring

theorem processBatch_ok (nI : Nat) (f16 : Nat → Nat) (cts : List CatType) (m : Nat)
    (chunk : List Nat) (hlen : chunk.length = m * ((1 + nI + cts.length) * 4)) :
    processBatch nI f16 cts chunk =
      .ok (encodeRows nI f16 cts
        (reshapeRowsAux (1 + nI + cts.length) m (bytesToWords chunk))) := by
  have h4 : chunk.length % 4 = 0 := by
    rw [hlen, show m * ((1 + nI + cts.length) * 4) = m * (1 + nI + cts.length) * 4 from by ring]
    exact Nat.mul_mod_left _ 4
  have hwlen : (bytesToWords chunk).length = m * (1 + nI + cts.length) := by
    rw [bytesToWords_length, hlen,
      show m * ((1 + nI + cts.length) * 4) = m * (1 + nI + cts.length) * 4 from by ring]
    exact Nat.mul_div_cancel _ (by omega)
  have hmod : (bytesToWords chunk).length % (1 + nI + cts.length) = 0 := by
    rw [hwlen]
    exact Nat.mul_mod_left _ _
  unfold processBatch
  rw [if_neg (fun hh => hh h4), if_neg (fun hh => hh hmod)]
  unfold reshapeRows
  rw [hwlen, Nat.mul_div_cancel _ (by omega)]

theorem splitLoop_cons_ok (nI : Nat) (f16 : Nat → Nat) (cts : List CatType) (cb : Nat)
    (file : List Nat) (k pos : Nat) (acc out : SplitOutput)
    (h : processBatch nI f16 cts ((file.drop pos).take cb) = .ok out) :
    splitLoop nI f16 cts cb file (k + 1) pos acc =
      splitLoop nI f16 cts cb file k (pos + ((file.drop pos).take cb).length) (acc.app out) := by
  simp only [splitLoop, h]

theorem splitLoop_cons_err (nI : Nat) (f16 : Nat → Nat) (cts : List CatType) (cb : Nat)
    (file : List Nat) (k pos : Nat) (acc : SplitOutput) (e : String)
    (h : processBatch nI f16 cts ((file.drop pos).take cb) = .error e) :
    splitLoop nI f16 cts cb file (k + 1) pos acc = .error e := by
  simp only [splitLoop, h]

/-- Main success lemma for the batch loop: if the remaining input from
position `pos` holds `M` whole records plus `r` trailing bytes, the batch
count matches the remaining records, and either there is no remainder or
`M` is a multiple of the batch size (so the final read stops on a record
boundary), then the loop succeeds and appends exactly the encoding of
those `M` records. -/
theorem splitLoop_spec (nI : Nat) (f16 : Nat → Nat) (cts : List CatType) (bs : Nat)
    (hbs : 0 < bs) (file : List Nat) (cb : Nat)
    (hcb : cb = (1 + nI + cts.length) * 4 * bs) :
    ∀ (k M r pos : Nat) (acc : SplitOutput),
      acc.cats.length = cts.length →
      (file.drop pos).length = M * ((1 + nI + cts.length) * 4) + r →
      r < (1 + nI + cts.length) * 4 →
      (r = 0 ∨ M % bs = 0) →
      M ≤ k * bs → k * bs < M + bs →
      splitLoop nI f16 cts cb file k pos acc =
        .ok (acc.app (encodeRows nI f16 cts
          (reshapeRowsAux (1 + nI + cts.length) M
            (bytesToWords ((file.drop pos).take (M * ((1 + nI + cts.length) * 4))))))) := by
  intro k
  induction k with
  | zero =>
    intro M r pos acc hacc hlen hr hok hub hlb
    have hM : M = 0 := by omega
    subst hM
    simp only [splitLoop, Nat.zero_mul, List.take_zero]
    rw [show reshapeRowsAux (1 + nI + cts.length) 0 (bytesToWords []) = [] from rfl,
      app_encodeRows_nil nI f16 cts acc hacc]
  | succ k ih =>
    intro M r pos acc hacc hlen hr hok hub hlb
    have hexp : (k + 1) * bs = k * bs + bs := by ring
    have hw4pos : 0 < (1 + nI + cts.length) * 4 := by omega
    have hMpos : 1 ≤ M := by omega
    have hcb2 : cb = bs * ((1 + nI + cts.length) * 4) := by rw [hcb]; ring
    by_cases hcase : bs ≤ M
    · -- a full chunk of bs records is read
      have hmle : bs * ((1 + nI + cts.length) * 4) ≤ M * ((1 + nI + cts.length) * 4) :=
        Nat.mul_le_mul_right _ hcase
      have hchunklen : ((file.drop pos).take cb).length = bs * ((1 + nI + cts.length) * 4) := by
        rw [List.length_take, hlen, hcb2]
        omega
      have hout := processBatch_ok nI f16 cts bs ((file.drop pos).take cb) hchunklen
      have hdist : (M - bs) * ((1 + nI + cts.length) * 4) + bs * ((1 + nI + cts.length) * 4)
          = M * ((1 + nI + cts.length) * 4) := by
        rw [← Nat.add_mul, Nat.sub_add_cancel hcase]
      have hbppos : 0 < bs * ((1 + nI + cts.length) * 4) := Nat.mul_pos hbs hw4pos
      rw [splitLoop_cons_ok nI f16 cts cb file k pos acc _ hout, hchunklen, ← hcb2]
      have hlen2 : (file.drop (pos + cb)).length =
          (M - bs) * ((1 + nI + cts.length) * 4) + r := by
        rw [List.length_drop]
        rw [List.length_drop] at hlen
        omega
      have hok2 : r = 0 ∨ (M - bs) % bs = 0 := by
        rcases hok with h | h
        · exact Or.inl h
        · right
          have h2 := Nat.add_mod_right (M - bs) bs
          rw [Nat.sub_add_cancel hcase] at h2
          omega
      have hacc2 : (acc.app (encodeRows nI f16 cts
          (reshapeRowsAux (1 + nI + cts.length) bs
            (bytesToWords ((file.drop pos).take cb))))).cats.length = cts.length := by
        rw [app_cats_length, hacc, encodeRows_cats_length]
        omega
      rw [ih (M - bs) r (pos + cb) _ hacc2 hlen2 hr hok2 (by omega) (by omega)]
      rw [app_assoc, ← encodeRows_append]
      have hmod4 : (((file.drop pos).take cb)).length % 4 = 0 := by
        rw [hchunklen, show bs * ((1 + nI + cts.length) * 4) = bs * (1 + nI + cts.length) * 4
          from by ring]
        exact Nat.mul_mod_left _ 4
      have hw1len : (bytesToWords ((file.drop pos).take cb)).length
          = bs * (1 + nI + cts.length) := by
        rw [bytesToWords_length, hchunklen, show bs * ((1 + nI + cts.length) * 4)
          = bs * (1 + nI + cts.length) * 4 from by ring]
        exact Nat.mul_div_cancel _ (by omega)
      have happ := reshapeRowsAux_append (1 + nI + cts.length) bs (M - bs)
        (bytesToWords ((file.drop pos).take cb))
        (bytesToWords ((file.drop (pos + cb)).take ((M - bs) * ((1 + nI + cts.length) * 4))))
        hw1len
      rw [show bs + (M - bs) = M from by omega] at happ
      have htk : (file.drop pos).take (M * ((1 + nI + cts.length) * 4)) =
          (file.drop pos).take cb ++
            (file.drop (pos + cb)).take ((M - bs) * ((1 + nI + cts.length) * 4)) := by
        rw [show M * ((1 + nI + cts.length) * 4)
            = cb + (M - bs) * ((1 + nI + cts.length) * 4) from by omega,
          List.take_add, List.drop_drop]
      rw [htk, bytesToWords_append _ _ hmod4, happ]
    · -- final, shorter batch: all remaining records in one read
      have hMlt : M < bs := by omega
      have hr0 : r = 0 := by
        rcases hok with h | h
        · exact h
        · rw [Nat.mod_eq_of_lt hMlt] at h
          omega
      subst hr0
      have hk0 : k = 0 := by
        by_contra hk
        have h2 : bs ≤ k * bs := Nat.le_mul_of_pos_left bs (Nat.pos_of_ne_zero hk)
        omega
      subst hk0
      have hLlen : (file.drop pos).length = M * ((1 + nI + cts.length) * 4) := by omega
      have hMl : M * ((1 + nI + cts.length) * 4) < bs * ((1 + nI + cts.length) * 4) :=
        (Nat.mul_lt_mul_right hw4pos).mpr hMlt
      have htakecb : (file.drop pos).take cb = file.drop pos := by
        apply List.take_of_length_le
        rw [hLlen, hcb2]
        omega
      have htakeM : (file.drop pos).take (M * ((1 + nI + cts.length) * 4)) = file.drop pos :=
        List.take_of_length_le hLlen.le
      have hout : processBatch nI f16 cts ((file.drop pos).take cb) =
          .ok (encodeRows nI f16 cts
            (reshapeRowsAux (1 + nI + cts.length) M (bytesToWords ((file.drop pos).take cb)))) := by
        rw [htakecb]
        exact processBatch_ok nI f16 cts M (file.drop pos) hLlen
      rw [splitLoop_cons_ok nI f16 cts cb file 0 pos acc _ hout]
      simp only [splitLoop]
      rw [htakecb, htakeM]

/-- Main failure lemma for the batch loop: when the remaining record
count is not a multiple of the batch size and trailing remainder bytes
exist, the final read is short and includes the remainder, so the buffer
is not a whole number of records and the batch body fails (either in the
`frombuffer` length check or in the `reshape` divisibility check). -/
theorem splitLoop_err (nI : Nat) (f16 : Nat → Nat) (cts : List CatType) (bs : Nat)
    (hbs : 0 < bs) (file : List Nat) (cb : Nat)
    (hcb : cb = (1 + nI + cts.length) * 4 * bs) :
    ∀ (k M r pos : Nat) (acc : SplitOutput),
      (file.drop pos).length = M * ((1 + nI + cts.length) * 4) + r →
      r < (1 + nI + cts.length) * 4 →
      0 < r →
      M % bs ≠ 0 →
      M ≤ k * bs → k * bs < M + bs →
      isOkExc (splitLoop nI f16 cts cb file k pos acc) = false := by
  intro k
  induction k with
  | zero =>
    intro M r pos acc hlen hr hrpos hMmod hub hlb
    exfalso
    have hM : M = 0 := by omega
    subst hM
    simp at hMmod
  | succ k ih =>
    intro M r pos acc hlen hr hrpos hMmod hub hlb
    have hexp : (k + 1) * bs = k * bs + bs := by ring
    have hw4pos : 0 < (1 + nI + cts.length) * 4 := by omega
    have hMpos : 1 ≤ M := by
      rcases Nat.eq_zero_or_pos M with h | h
      · subst h; simp at hMmod
      · exact h
    have hcb2 : cb = bs * ((1 + nI + cts.length) * 4) := by rw [hcb]; ring
    by_cases hcase : bs ≤ M
    · -- a full chunk is read and processed; the fault is further on
      have hmle : bs * ((1 + nI + cts.length) * 4) ≤ M * ((1 + nI + cts.length) * 4) :=
        Nat.mul_le_mul_right _ hcase
      have hchunklen : ((file.drop pos).take cb).length = bs * ((1 + nI + cts.length) * 4) := by
        rw [List.length_take, hlen, hcb2]
        omega
      have hout := processBatch_ok nI f16 cts bs ((file.drop pos).take cb) hchunklen
      have hdist : (M - bs) * ((1 + nI + cts.length) * 4) + bs * ((1 + nI + cts.length) * 4)
          = M * ((1 + nI + cts.length) * 4) := by
        rw [← Nat.add_mul, Nat.sub_add_cancel hcase]
      have hbppos : 0 < bs * ((1 + nI + cts.length) * 4) := Nat.mul_pos hbs hw4pos
      rw [splitLoop_cons_ok nI f16 cts cb file k pos acc _ hout, hchunklen, ← hcb2]
      have hlen2 : (file.drop (pos + cb)).length =
          (M - bs) * ((1 + nI + cts.length) * 4) + r := by
        rw [List.length_drop]
        rw [List.length_drop] at hlen
        omega
      have hmod2 : (M - bs) % bs ≠ 0 := by
        have h2 := Nat.add_mod_right (M - bs) bs
        rw [Nat.sub_add_cancel hcase] at h2
        omega
      exact ih (M - bs) r (pos + cb) _ hlen2 hr hrpos hmod2 (by omega) (by omega)
    · -- short final read: the chunk holds M records plus the remainder
      have hMlt : M < bs := by omega
      have hMl : M * ((1 + nI + cts.length) * 4) + (1 + nI + cts.length) * 4
          ≤ bs * ((1 + nI + cts.length) * 4) := by
        rw [show M * ((1 + nI + cts.length) * 4) + (1 + nI + cts.length) * 4
            = (M + 1) * ((1 + nI + cts.length) * 4) from by ring]
        exact Nat.mul_le_mul_right _ hMlt
      have htakecb : (file.drop pos).take cb = file.drop pos := by
        apply List.take_of_length_le
        rw [hlen, hcb2]
        omega
      have hchlen : ((file.drop pos).take cb).length
          = M * ((1 + nI + cts.length) * 4) + r := by
        rw [htakecb, hlen]
      have hM4 : M * ((1 + nI + cts.length) * 4) % 4 = 0 := by
        rw [show M * ((1 + nI + cts.length) * 4) = M * (1 + nI + cts.length) * 4 from by ring]
        exact Nat.mul_mod_left _ 4
      by_cases h4 : r % 4 = 0
      · -- the element-size check passes, the reshape check fails
        have hc4 : ¬ ((file.drop pos).take cb).length % 4 ≠ 0 := by
          rw [hchlen]
          omega
        have hwl : (bytesToWords ((file.drop pos).take cb)).length
            = M * (1 + nI + cts.length) + r / 4 := by
          rw [bytesToWords_length, hchlen,
            show M * ((1 + nI + cts.length) * 4) = M * (1 + nI + cts.length) * 4 from by ring]
          omega
        have hqlt : r / 4 < 1 + nI + cts.length := by omega
        have hwmod : (bytesToWords ((file.drop pos).take cb)).length
            % (1 + nI + cts.length) ≠ 0 := by
          rw [hwl, Nat.mul_comm M (1 + nI + cts.length), Nat.mul_add_mod,
            Nat.mod_eq_of_lt hqlt]
          omega
        have hpb : processBatch nI f16 cts ((file.drop pos).take cb)
            = .error "cannot reshape array" := by
          unfold processBatch
          rw [if_neg hc4, if_pos hwmod]
        rw [splitLoop_cons_err nI f16 cts cb file k pos acc _ hpb]
        rfl
      · -- the element-size check itself fails
        have hc4 : ((file.drop pos).take cb).length % 4 ≠ 0 := by
          rw [hchlen]
          omega
        have hpb : processBatch nI f16 cts ((file.drop pos).take cb)
            = .error "buffer size must be a multiple of element size" := by
          unfold processBatch
          rw [if_pos hc4]
        rw [splitLoop_cons_err nI f16 cts cb file k pos acc _ hpb]
        rfl

/-- Bounds characterizing `ceilDiv N bs` as the batch count for `N`
records: enough batches to cover all records, but no full batch of slack. -/
theorem batches_bounds (N bs : Nat) (hbs : 0 < bs) :
    N ≤ ceilDiv N bs * bs ∧ ceilDiv N bs * bs < N + bs := by
  unfold ceilDiv
  have h1 := Nat.div_add_mod (N + bs - 1) bs
  have h2 : (N + bs - 1) % bs < bs := Nat.mod_lt _ hbs
  have h3 : (N + bs - 1) / bs * bs = bs * ((N + bs - 1) / bs) := by ring
  omega

/-- Success form of `split_binary_file`: with a representable schema, a
positive batch size, and a file holding `N` whole records plus `r`
trailing bytes, where every read stops on a record boundary (`r = 0`, or
`N` a multiple of the batch size so the remainder is never read), the
call succeeds and writes exactly the encoding of the `N` records; the
trailing `r` bytes are never decoded. -/
theorem split_binary_file_ok (nI : Nat) (f16 : Nat → Nat) (catSizes : List Nat)
    (cts : List CatType) (bs : Nat) (hbs : 0 < bs) (file : List Nat) (N r : Nat)
    (hmap : mapExcept get_categorical_feature_type catSizes = .ok cts)
    (hlen : file.length = N * (recordWidth nI catSizes.length * 4) + r)
    (hr : r < recordWidth nI catSizes.length * 4)
    (hok : r = 0 ∨ N % bs = 0) :
    split_binary_file nI f16 catSizes bs file = .ok (refOutput nI f16 cts N file) := by
  have hlc : cts.length = catSizes.length := mapExcept_length _ catSizes cts hmap
  unfold split_binary_file refOutput
  rw [hmap]
  simp only [recordWidth]
  rw [← hlc]
  simp only [recordWidth] at hlen hr
  rw [← hlc] at hlen hr
  have hN : file.length / ((1 + nI + cts.length) * 4) = N := by
    rw [hlen, Nat.mul_comm N ((1 + nI + cts.length) * 4), Nat.mul_add_div (by omega),
      Nat.div_eq_of_lt hr, Nat.add_zero]
  rw [hN]
  have hb := batches_bounds N bs hbs
  have hmain := splitLoop_spec nI f16 cts bs hbs file ((1 + nI + cts.length) * 4 * bs) rfl
    (ceilDiv N bs) N r 0 (emptyOutput cts.length)
    (by simp [emptyOutput]) (by simpa using hlen) hr hok hb.1 hb.2
  rw [List.drop_zero] at hmain
  rw [hmain, emptyOutput_app _ _ (encodeRows_cats_length nI f16 cts _)]

/-- Failure form of `split_binary_file`: with a representable schema and
positive batch size, a nonzero trailing remainder together with a record
count that is not a multiple of the batch size makes the final short
read fail inside the batch body, so the call reports an error. -/
theorem split_binary_file_fail (nI : Nat) (f16 : Nat → Nat) (catSizes : List Nat)
    (cts : List CatType) (bs : Nat) (hbs : 0 < bs) (file : List Nat) (N r : Nat)
    (hmap : mapExcept get_categorical_feature_type catSizes = .ok cts)
    (hlen : file.length = N * (recordWidth nI catSizes.length * 4) + r)
    (hr : r < recordWidth nI catSizes.length * 4)
    (hrpos : 0 < r) (hmod : N % bs ≠ 0) :
    isOkExc (split_binary_file nI f16 catSizes bs file) = false := by
  have hlc : cts.length = catSizes.length := mapExcept_length _ catSizes cts hmap
  unfold split_binary_file
  rw [hmap]
  simp only [recordWidth]
  rw [← hlc]
  simp only [recordWidth] at hlen hr
  rw [← hlc] at hlen hr
  have hN : file.length / ((1 + nI + cts.length) * 4) = N := by
    rw [hlen, Nat.mul_comm N ((1 + nI + cts.length) * 4), Nat.mul_add_div (by omega),
      Nat.div_eq_of_lt hr, Nat.add_zero]
  rw [hN]
  have hb := batches_bounds N bs hbs
  exact splitLoop_err nI f16 cts bs hbs file ((1 + nI + cts.length) * 4 * bs) rfl
    (ceilDiv N bs) N r 0 (emptyOutput cts.length)
    (by simpa using hlen) hr hrpos hmod hb.1 hb.2

theorem castBytes_length (t : CatType) (p : Nat) : (castBytes t p).length = t.nbytes := by
  cases t <;> rfl

/-- Stream sizes produced by encoding `N` whole rows: one label byte per
record, `2 * nI` numerical bytes per record, and `nbytes` bytes per
record in each categorical stream. -/
theorem encodeRows_lengths (nI : Nat) (f16 : Nat → Nat) (cts : List CatType)
    (N : Nat) (words : List Nat) (hw : words.length = N * (1 + nI + cts.length)) :
    (encodeRows nI f16 cts (reshapeRowsAux (1 + nI + cts.length) N words)).label.length = N
  ∧ (encodeRows nI f16 cts (reshapeRowsAux (1 + nI + cts.length) N words)).numerical.length
      = N * (nI * 2)
  ∧ ∀ i, i < cts.length →
      ((encodeRows nI f16 cts
        (reshapeRowsAux (1 + nI + cts.length) N words)).cats.getD i []).length
        = N * (cts.getD i .i8).nbytes := by
  have hrow := reshapeRowsAux_row_length (1 + nI + cts.length) N words hw
  have hcount := reshapeRowsAux_length (1 + nI + cts.length) N words
  refine ⟨?_, ?_, ?_⟩
  · simp [encodeRows, batchLabel, hcount]
  · simp only [encodeRows, batchNumerical]
    rw [flatMap_length_const _ (nI * 2) _ ?hper, hcount]
    case hper =>
      intro row hmem
      rw [flatMap_length_const (f16bytes f16) 2 _ (fun x _ => rfl), List.length_take,
        List.length_drop, hrow row hmem]
      have : 1 + nI + cts.length - 1 = nI + cts.length := by omega
      rw [this]
      omega
  · intro i hi
    simp only [encodeRows, batchCats]
    have hi2 : i < (cts.enum.map (fun it => (reshapeRowsAux (1 + nI + cts.length) N words).flatMap
        (fun row => castBytes it.2 (row.getD (1 + nI + it.1) 0)))).length := by
      simpa using hi
    rw [List.getD_eq_getElem _ _ hi2, List.getElem_map, List.getElem_enum]
    rw [flatMap_length_const _ (cts[i].nbytes) _ (fun row _ => castBytes_length _ _), hcount,
      List.getD_eq_getElem _ _ hi]

/-- Success of the batch body depends only on the chunk length, never on
the byte values: the two failure checks inspect only lengths. -/
theorem processBatch_isOk_of_length (nI : Nat) (f16 : Nat → Nat) (cts : List CatType)
    (chunk chunk' : List Nat) (h : chunk.length = chunk'.length) :
    isOkExc (processBatch nI f16 cts chunk) = isOkExc (processBatch nI f16 cts chunk') := by
  unfold processBatch
  rw [bytesToWords_length, bytesToWords_length, h]
  by_cases h4 : chunk'.length % 4 ≠ 0
  · rw [if_pos h4, if_pos h4]
  · rw [if_neg h4, if_neg h4]
    by_cases hw : chunk'.length / 4 % (1 + nI + cts.length) ≠ 0
    · rw [if_pos hw, if_pos hw]
    · rw [if_neg hw, if_neg hw]
      rfl

/-- Success of the batch loop depends only on the input length. -/
theorem splitLoop_isOk_of_length (nI : Nat) (f16 : Nat → Nat) (cts : List CatType)
    (cb : Nat) (file file' : List Nat) (hfl : file.length = file'.length) :
    ∀ (k pos : Nat) (acc acc' : SplitOutput),
      isOkExc (splitLoop nI f16 cts cb file k pos acc)
        = isOkExc (splitLoop nI f16 cts cb file' k pos acc') := by
  intro k
  induction k with
  | zero => intro pos acc acc'; rfl
  | succ k ih =>
    intro pos acc acc'
    have hcl : ((file.drop pos).take cb).length = ((file'.drop pos).take cb).length := by
      rw [List.length_take, List.length_take, List.length_drop, List.length_drop, hfl]
    have hpb := processBatch_isOk_of_length nI f16 cts _ _ hcl
    simp only [splitLoop]
    cases h1 : processBatch nI f16 cts ((file.drop pos).take cb) with
    | error e =>
      cases h2 : processBatch nI f16 cts ((file'.drop pos).take cb) with
      | error e2 => rfl
      | ok o2 => rw [h1, h2] at hpb; simp [isOkExc] at hpb
    | ok o1 =>
      cases h2 : processBatch nI f16 cts ((file'.drop pos).take cb) with
      | error e2 => rw [h1, h2] at hpb; simp [isOkExc] at hpb
      | ok o2 =>
        rw [hcl]
        exact ih (pos + ((file'.drop pos).take cb).length) (acc.app o1) (acc'.app o2)

/-- Success of one whole `split_binary_file` call depends only on the
schema and the input length, never on the stored values: an oversized raw
categorical value cannot cause a failure. -/
theorem split_binary_file_isOk_of_length (nI : Nat) (f16 : Nat → Nat) (catSizes : List Nat)
    (bs : Nat) (file file' : List Nat) (hfl : file.length = file'.length) :
    isOkExc (split_binary_file nI f16 catSizes bs file)
      = isOkExc (split_binary_file nI f16 catSizes bs file') := by
  unfold split_binary_file
  cases hm : mapExcept get_categorical_feature_type catSizes with
  | error e => rfl
  | ok cts =>
    rw [hfl]
    exact splitLoop_isOk_of_length nI f16 cts _ file file' hfl _ 0 _ _

/-- Little-endian value of the bytes emitted for one categorical slot:
exactly the 32-bit pattern reduced modulo the selected width. -/
theorem leValue_castBytes (t : CatType) (p : Nat) :
    leValue (castBytes t p) = p % 2 ^ (8 * t.nbytes) := by
  cases t <;> simp only [castBytes, leValue, CatType.nbytes] <;> norm_num <;> omega

/-- Every stream recorded in `file_streams` is closed by the finally
block, on both the normal and the exceptional exit path. -/
theorem runBody_closes_acquired (fail : Nat → Bool) :
    ∀ (steps : List Step) (idx : Nat) (streams : List StreamName) (s : StreamName),
      s ∈ streams → Ev.closed s ∈ runBody fail steps idx streams := by
  intro steps
  induction steps with
  | nil =>
    intro idx streams s hs
    simp only [runBody]
    exact List.mem_map_of_mem _ hs
  | cons st rest ih =>
    intro idx streams s hs
    simp only [runBody]
    by_cases hf : fail idx
    · rw [if_pos hf]
      exact List.mem_append_left _ (List.mem_map_of_mem _ hs)
    · rw [if_neg hf]
      cases st with
      | openStream s2 =>
        exact List.mem_cons_of_mem _
          (ih (idx + 1) (streams ++ [s2]) s (List.mem_append_left _ hs))
      | batchWork => exact ih (idx + 1) streams s hs

/-- Any stream whose acquisition is recorded in the trace is also closed
in the trace: a successful open appends the stream to `file_streams`
before any later step can fail. -/
theorem runBody_opened_closed (fail : Nat → Bool) :
    ∀ (steps : List Step) (idx : Nat) (streams : List StreamName) (s : StreamName),
      Ev.opened s ∈ runBody fail steps idx streams →
      Ev.closed s ∈ runBody fail steps idx streams := by
  intro steps
  induction steps with
  | nil =>
    intro idx streams s hs
    exfalso
    simp only [runBody] at hs
    rcases List.mem_map.mp hs with ⟨x, -, hx⟩
    exact Ev.noConfusion hx
  | cons st rest ih =>
    intro idx streams s hs
    simp only [runBody] at hs ⊢
    by_cases hf : fail idx
    · rw [if_pos hf] at hs ⊢
      rcases List.mem_append.mp hs with h | h
      · exfalso
        rcases List.mem_map.mp h with ⟨x, -, hx⟩
        exact Ev.noConfusion hx
      · exfalso
        simp at h
    · rw [if_neg hf] at hs ⊢
      cases st with
      | openStream s2 =>
        rcases List.mem_cons.mp hs with h | h
        · have hss : s = s2 := by injection h
          subst hss
          exact List.mem_cons_of_mem _
            (runBody_closes_acquired fail rest (idx + 1) (streams ++ [s]) s (by simp))
        · exact List.mem_cons_of_mem _ (ih (idx + 1) (streams ++ [s2]) s h)
      | batchWork => exact ih (idx + 1) streams s hs

/-- Each recorded read requests exactly `chunkBytes` and returns at most
`chunkBytes` bytes. -/
theorem splitLoopReads_bound (nI : Nat) (f16 : Nat → Nat) (cts : List CatType)
    (cb : Nat) (file : List Nat) :
    ∀ (k pos req ret : Nat), (req, ret) ∈ splitLoopReads nI f16 cts cb file k pos →
      req = cb ∧ ret ≤ cb := by
  intro k
  induction k with
  | zero =>
    intro pos req ret h
    simp [splitLoopReads] at h
  | succ k ih =>
    intro pos req ret h
    simp only [splitLoopReads] at h
    rcases List.mem_cons.mp h with h1 | h1
    · have hreq : req = cb := congrArg Prod.fst h1
      have hret : ret = ((file.drop pos).take cb).length := congrArg Prod.snd h1
      refine ⟨hreq, ?_⟩
      rw [hret]
      exact List.length_take_le cb _
    · cases hpb : processBatch nI f16 cts ((file.drop pos).take cb) with
      | error e =>
        rw [hpb] at h1
        simp at h1
      | ok o =>
        rw [hpb] at h1
        exact ih _ req ret h1

/-- Claim C3: for every cardinality bound `c`, the selected categorical
width is the smallest of the 8-bit, 16-bit, 32-bit signed types whose
maximum representable value strictly exceeds `c` (so `c < 127` gives
8-bit, `127 ≤ c < 32767` gives 16-bit, `32767 ≤ c < 2147483647` gives
32-bit), and when `c` is not strictly below the 32-bit signed maximum the
call fails with the schema error. -/
theorem claim_C3 (c : Nat) :
    (∀ t, get_categorical_feature_type c = .ok t →
      c < t.max ∧ ∀ u : CatType, c < u.max → t.max ≤ u.max)
  ∧ (c < 127 → get_categorical_feature_type c = .ok .i8)
  ∧ (127 ≤ c → c < 32767 → get_categorical_feature_type c = .ok .i16)
  ∧ (32767 ≤ c → c < 2147483647 → get_categorical_feature_type c = .ok .i32)
  ∧ (2147483647 ≤ c → get_categorical_feature_type c
      = .error "Categorical feature is too big for defined types") := by
  refine ⟨?_, ?_, ?_, ?_, fun h => get_categorical_feature_type_big c h⟩
  · intro t ht
    unfold get_categorical_feature_type at ht
    simp only [CatType.max] at ht
    split_ifs at ht with h1 h2 h3
    · injection ht with ht2
      subst ht2
      refine ⟨by simpa [CatType.max] using h1, ?_⟩
      intro u hu
      cases u <;> simp only [CatType.max] at hu ⊢ <;> omega
    · injection ht with ht2
      subst ht2
      refine ⟨by simp only [CatType.max]; omega, ?_⟩
      intro u hu
      cases u <;> simp only [CatType.max] at hu ⊢ <;> omega
    · injection ht with ht2
      subst ht2
      refine ⟨by simp only [CatType.max]; omega, ?_⟩
      intro u hu
      cases u <;> simp only [CatType.max] at hu ⊢ <;> omega
  · intro h
    unfold get_categorical_feature_type
    simp only [CatType.max]
    rw [if_pos h]
  · intro h1 h2
    unfold get_categorical_feature_type
    simp only [CatType.max]
    rw [if_neg (by omega), if_pos h2]
  · intro h1 h2
    unfold get_categorical_feature_type
    simp only [CatType.max]
    rw [if_neg (by omega), if_neg (by omega), if_pos h2]

/-- Witness for C3 at the spec's example bound 30000, which selects the
16-bit width. -/
theorem claim_C3_witness : get_categorical_feature_type 30000 = .ok .i16 :=
  (claim_C3 30000).2.2.1 (by decide) (by decide)

/-- Claim C4: a cardinality bound too large for every supported width
makes the call fail, the failure is raised before the try block, so the
resource trace shows no stream ever opened and no output file created,
whatever the batch count or the behaviour of later steps. -/
theorem claim_C4 (nI : Nat) (f16 : Nat → Nat) (catSizes : List Nat) (bs : Nat)
    (file : List Nat) (batches : Nat) (fail : Nat → Bool)
    (hbad : ∃ c ∈ catSizes, 2147483647 ≤ c) :
    isOkExc (split_binary_file nI f16 catSizes bs file) = false
  ∧ split_binary_file_streams catSizes batches fail = [Ev.raised]
  ∧ ∀ s, Ev.opened s ∉ split_binary_file_streams catSizes batches fail := by
  have hm := mapExcept_error_of_big catSizes hbad
  cases hmm : mapExcept get_categorical_feature_type catSizes with
  | ok ts =>
    rw [hmm] at hm
    exact absurd hm (by simp [isOkExc])
  | error e =>
    refine ⟨?_, ?_, ?_⟩
    · unfold split_binary_file
      rw [hmm]
      rfl
    · unfold split_binary_file_streams
      rw [hmm]
    · intro s
      unfold split_binary_file_streams
      rw [hmm]
      simp

/-- Witness for C4: the bound 2147483648 exceeds every supported width. -/
theorem claim_C4_witness :
    isOkExc (split_binary_file 13 (fun _ => 0) [2147483648] 1 (List.replicate 10 0)) = false
  ∧ split_binary_file_streams [2147483648] 3 (fun _ => false) = [Ev.raised]
  ∧ ∀ s, Ev.opened s ∉ split_binary_file_streams [2147483648] 3 (fun _ => false) :=
  claim_C4 13 (fun _ => 0) [2147483648] 1 (List.replicate 10 0) 3 (fun _ => false)
    ⟨2147483648, by decide⟩

/-- Claim C5: on every exit path of the engine — normal completion, or a
step failing at any point after stream setup begins, including mid-loop —
every stream whose acquisition is recorded so far is closed before the
call returns or the failure propagates. -/
theorem claim_C5 (catSizes : List Nat) (batches : Nat) (fail : Nat → Bool) (s : StreamName)
    (hmem : Ev.opened s ∈ split_binary_file_streams catSizes batches fail) :
    Ev.closed s ∈ split_binary_file_streams catSizes batches fail := by
  unfold split_binary_file_streams at hmem ⊢
  revert hmem
  cases hm : mapExcept get_categorical_feature_type catSizes with
  | error e =>
    intro hmem
    exfalso
    simp at hmem
  | ok cts =>
    intro hmem
    exact runBody_opened_closed fail _ 0 [] s hmem

/-- Witness for C5: with one categorical feature, one batch and a failure
striking the fourth step (the categorical stream open), the streams
opened so far are all closed. -/
theorem claim_C5_witness :
    Ev.closed .label ∈ split_binary_file_streams [10] 1 (fun idx => decide (idx = 3)) :=
  claim_C5 [10] 1 (fun idx => decide (idx = 3)) .label (by decide)

/-- Claim C9: every read issued by the engine requests exactly
`batchSize * bytesPerRecord` bytes and receives at most that many, so the
per-batch buffer is bounded independently of the total file size. -/
theorem claim_C9 (nI : Nat) (f16 : Nat → Nat) (catSizes : List Nat) (bs : Nat)
    (file : List Nat) (req ret : Nat)
    (hmem : (req, ret) ∈ split_binary_file_reads nI f16 catSizes bs file) :
    req = recordWidth nI catSizes.length * 4 * bs
  ∧ ret ≤ recordWidth nI catSizes.length * 4 * bs := by
  simp only [split_binary_file_reads] at hmem
  cases hm : mapExcept get_categorical_feature_type catSizes with
  | error e =>
    rw [hm] at hmem
    simp at hmem
  | ok cts =>
    rw [hm] at hmem
    exact splitLoopReads_bound nI f16 cts _ file _ 0 req ret hmem

set_option maxRecDepth 10000 in
/-- Witness for C9 on a 121-byte file read in one 120-byte batch. -/
theorem claim_C9_witness :
    (120, 120) ∈ split_binary_file_reads 13 (fun _ => 0) [10] 2 (List.replicate 121 0)
  ∧ 120 = recordWidth 13 ([10] : List Nat).length * 4 * 2
  ∧ 120 ≤ recordWidth 13 ([10] : List Nat).length * 4 * 2 :=
  ⟨by decide,
   claim_C9 13 (fun _ => 0) [10] 2 (List.replicate 121 0) 120 120 (by decide)⟩

/-- Claim C7: an input file strictly shorter than one record (including
an empty file) yields zero batches, so the call succeeds and every output
stream — label, numerical, and each categorical stream — is empty. -/
theorem claim_C7 (nI : Nat) (f16 : Nat → Nat) (catSizes : List Nat) (cts : List CatType)
    (bs : Nat) (file : List Nat) (hbs : 0 < bs)
    (hmap : mapExcept get_categorical_feature_type catSizes = .ok cts)
    (hshort : file.length < recordWidth nI catSizes.length * 4) :
    split_binary_file nI f16 catSizes bs file = .ok (emptyOutput catSizes.length)
  ∧ (emptyOutput catSizes.length).label = []
  ∧ (emptyOutput catSizes.length).numerical = []
  ∧ ∀ i, (emptyOutput catSizes.length).cats.getD i [] = [] := by
  refine ⟨?_, rfl, rfl, ?_⟩
  · unfold split_binary_file
    rw [hmap]
    have h0 : file.length / (recordWidth nI catSizes.length * 4) = 0 :=
      Nat.div_eq_of_lt hshort
    simp only [recordWidth] at h0 ⊢
    rw [h0]
    have hc : ceilDiv 0 bs = 0 := by
      unfold ceilDiv
      exact Nat.div_eq_of_lt (by omega)
    rw [hc]
    rfl
  · intro i
    simp only [emptyOutput]
    by_cases hi : i < catSizes.length
    · rw [List.getD_eq_getElem _ _ (by simpa using hi)]
      simp
    · rw [List.getD_eq_default]
      simpa using hi

/-- Witness for C7 on a 59-byte file, one byte short of a record. -/
theorem claim_C7_witness :
    split_binary_file 13 (fun _ => 0) [10] 5 (List.replicate 59 0)
      = .ok (emptyOutput ([10] : List Nat).length)
  ∧ (emptyOutput ([10] : List Nat).length).label = []
  ∧ (emptyOutput ([10] : List Nat).length).numerical = []
  ∧ ∀ i, (emptyOutput ([10] : List Nat).length).cats.getD i [] = [] :=
  claim_C7 13 (fun _ => 0) [10] [CatType.i8] 5 (List.replicate 59 0) (by decide)
    (by rfl) (by decide)

/-- Stream lengths of the reference output for `N` whole records. -/
theorem refOutput_lengths (nI : Nat) (f16 : Nat → Nat) (cts : List CatType) (N r : Nat)
    (file : List Nat) (hlen : file.length = N * (recordWidth nI cts.length * 4) + r) :
    (refOutput nI f16 cts N file).label.length = N
  ∧ (refOutput nI f16 cts N file).numerical.length = N * (nI * 2)
  ∧ (refOutput nI f16 cts N file).cats.length = cts.length
  ∧ ∀ i, i < cts.length → ((refOutput nI f16 cts N file).cats.getD i []).length
      = N * ((cts.getD i .i8).nbytes) := by
  have htl : (file.take (N * (recordWidth nI cts.length * 4))).length
      = N * (recordWidth nI cts.length * 4) := by
    rw [List.length_take, hlen]
    omega
  have hwl : (bytesToWords (file.take (N * (recordWidth nI cts.length * 4)))).length
      = N * (1 + nI + cts.length) := by
    rw [bytesToWords_length, htl]
    simp only [recordWidth]
    rw [show N * ((1 + nI + cts.length) * 4) = N * (1 + nI + cts.length) * 4 from by ring]
    exact Nat.mul_div_cancel _ (by omega)
  have hE := encodeRows_lengths nI f16 cts N _ hwl
  refine ⟨?_, ?_, ?_, ?_⟩
  · simpa only [refOutput, recordWidth] using hE.1
  · simpa only [refOutput, recordWidth] using hE.2.1
  · simp only [refOutput, recordWidth]
    exact encodeRows_cats_length nI f16 cts _
  · intro i hi
    simpa only [refOutput, recordWidth] using hE.2.2 i hi

/-- Claim C1 (amended): for a file of `N` whole records with a nonzero
trailing remainder `r`, the remainder is silently discarded and the call
succeeds exactly when `N` is a multiple of the batch size — then every
read stops on a record boundary and the trailing bytes are never read;
otherwise the final short read includes the remainder and the engine
fails while reinterpreting that buffer. -/
theorem claim_C1 (nI : Nat) (f16 : Nat → Nat) (catSizes : List Nat) (cts : List CatType)
    (bs : Nat) (file : List Nat) (N r : Nat) (hbs : 0 < bs)
    (hmap : mapExcept get_categorical_feature_type catSizes = .ok cts)
    (hlen : file.length = N * (recordWidth nI catSizes.length * 4) + r)
    (hr : r < recordWidth nI catSizes.length * 4) (hrpos : 0 < r) :
    (N % bs = 0 → split_binary_file nI f16 catSizes bs file
        = .ok (refOutput nI f16 cts N file))
  ∧ (N % bs ≠ 0 → isOkExc (split_binary_file nI f16 catSizes bs file) = false) :=
  ⟨fun h => split_binary_file_ok nI f16 catSizes cts bs hbs file N r hmap hlen hr (Or.inr h),
   fun h => split_binary_file_fail nI f16 catSizes cts bs hbs file N r hmap hlen hr hrpos h⟩

set_option maxRecDepth 10000 in
/-- Counterexample to C1 as stated: a 61-byte file (one 60-byte record
plus one trailing byte) with batch size 2 makes the engine fail — the
single read returns 61 bytes, which is not a multiple of the 4-byte
element size — instead of silently dropping the extra byte. -/
theorem claim_C1_counterexample :
    isOkExc (split_binary_file 13 (fun _ => 0) [10] 2 (List.replicate 61 0)) = false := by
  decide

set_option maxRecDepth 10000 in
/-- Witness for the amended C1 on a 121-byte file: the record count 2 is
a multiple of the batch size 2, so the trailing byte is dropped and the
call succeeds. -/
theorem claim_C1_witness :
    (2 % 2 = 0 → split_binary_file 13 (fun _ => 0) [10] 2 (List.replicate 121 0)
        = .ok (refOutput 13 (fun _ => 0) [CatType.i8] 2 (List.replicate 121 0)))
  ∧ (2 % 2 ≠ 0 →
      isOkExc (split_binary_file 13 (fun _ => 0) [10] 2 (List.replicate 121 0)) = false) :=
  claim_C1 13 (fun _ => 0) [10] [CatType.i8] 2 (List.replicate 121 0) 2 1 (by decide)
    (by rfl) (by decide) (by decide) (by decide)

/-- Claim C2 (amended): for a file of size `recordWidth*4*N + r` with
`0 ≤ r < recordWidth*4`, whenever the batch geometry stops on record
boundaries (`r = 0`, or `N` a multiple of the batch size) the engine
succeeds and every stream receives exactly `N` entries: `N` label bytes,
`N * numFields` float16 values (`2` bytes each), and `N` entries of the
selected width in each categorical stream. -/
theorem claim_C2 (nI : Nat) (f16 : Nat → Nat) (catSizes : List Nat) (cts : List CatType)
    (bs : Nat) (file : List Nat) (N r : Nat) (hbs : 0 < bs)
    (hmap : mapExcept get_categorical_feature_type catSizes = .ok cts)
    (hlen : file.length = N * (recordWidth nI catSizes.length * 4) + r)
    (hr : r < recordWidth nI catSizes.length * 4)
    (hok : r = 0 ∨ N % bs = 0) :
    ∃ out, split_binary_file nI f16 catSizes bs file = .ok out
      ∧ out.label.length = N
      ∧ out.numerical.length = N * (nI * 2)
      ∧ out.cats.length = catSizes.length
      ∧ ∀ i, i < cts.length → (out.cats.getD i []).length = N * ((cts.getD i .i8).nbytes) := by
  have hlc : cts.length = catSizes.length := mapExcept_length _ catSizes cts hmap
  have hlen2 : file.length = N * (recordWidth nI cts.length * 4) + r := by
    rw [← hlc] at hlen
    exact hlen
  have hL := refOutput_lengths nI f16 cts N r file hlen2
  exact ⟨refOutput nI f16 cts N file,
    split_binary_file_ok nI f16 catSizes cts bs hbs file N r hmap hlen hr hok,
    hL.1, hL.2.1, by rw [hL.2.2.1, hlc], hL.2.2.2⟩

set_option maxRecDepth 10000 in
/-- Counterexample to C2 as stated: a 124-byte file holds `N = 2` whole
60-byte records plus 4 trailing bytes; with batch size 3 the single read
returns 124 bytes, 31 words, which is not a whole number of 15-word
records, so the engine fails and no stream receives its 2 entries. -/
theorem claim_C2_counterexample :
    isOkExc (split_binary_file 13 (fun _ => 0) [10] 3 (List.replicate 124 0)) = false := by
  decide

set_option maxRecDepth 10000 in
/-- Witness for the amended C2 on a 124-byte file with batch size 2: the
record count 2 is a multiple of the batch size, the 4 trailing bytes are
dropped, and each stream receives exactly 2 entries. -/
theorem claim_C2_witness :
    ∃ out, split_binary_file 13 (fun _ => 0) [10] 2 (List.replicate 124 0) = .ok out
      ∧ out.label.length = 2
      ∧ out.numerical.length = 2 * (13 * 2)
      ∧ out.cats.length = ([10] : List Nat).length
      ∧ ∀ i, i < ([CatType.i8] : List CatType).length →
          (out.cats.getD i []).length
            = 2 * ((([CatType.i8] : List CatType).getD i .i8).nbytes) :=
  claim_C2 13 (fun _ => 0) [10] [CatType.i8] 2 (List.replicate 124 0) 2 4 (by decide)
    (by rfl) (by decide) (by decide) (Or.inr (by decide))

/-- Claim C6 (amended): two runs over the same input with different batch
sizes produce identical stream contents whenever each run's batch
geometry stops on record boundaries (`r = 0`, or the record count a
multiple of that run's batch size); with a nonzero remainder and a record
count that is not a multiple of the larger batch size, the two runs
differ because the larger-batch run fails while `batchSize = 1` (whose
reads always stop on record boundaries) succeeds. -/
theorem claim_C6 (nI : Nat) (f16 : Nat → Nat) (catSizes : List Nat) (cts : List CatType)
    (bs1 bs2 : Nat) (file : List Nat) (N r : Nat) (hbs1 : 0 < bs1) (hbs2 : 0 < bs2)
    (hmap : mapExcept get_categorical_feature_type catSizes = .ok cts)
    (hlen : file.length = N * (recordWidth nI catSizes.length * 4) + r)
    (hr : r < recordWidth nI catSizes.length * 4)
    (hok1 : r = 0 ∨ N % bs1 = 0) (hok2 : r = 0 ∨ N % bs2 = 0) :
    split_binary_file nI f16 catSizes bs1 file = split_binary_file nI f16 catSizes bs2 file := by
  rw [split_binary_file_ok nI f16 catSizes cts bs1 hbs1 file N r hmap hlen hr hok1,
    split_binary_file_ok nI f16 catSizes cts bs2 hbs2 file N r hmap hlen hr hok2]

set_option maxRecDepth 10000 in
/-- Counterexample to C6 as stated: on a 65-byte input (one whole record
plus 5 trailing bytes), `batchSize = 1` succeeds but `batchSize = 10000`
fails (its single read returns all 65 bytes, not a multiple of the
element size), so the two runs do not produce identical outputs. -/
theorem claim_C6_counterexample :
    isOkExc (split_binary_file 13 (fun _ => 0) [10] 1 (List.replicate 65 0)) = true
  ∧ isOkExc (split_binary_file 13 (fun _ => 0) [10] 10000 (List.replicate 65 0)) = false := by
  constructor <;> decide

set_option maxRecDepth 10000 in
/-- Witness for the amended C6 on a 120-byte input of two whole records:
batch sizes 1 and 3 produce identical stream contents. -/
theorem claim_C6_witness :
    split_binary_file 13 (fun _ => 0) [10] 1 (List.replicate 120 0)
      = split_binary_file 13 (fun _ => 0) [10] 3 (List.replicate 120 0) :=
  claim_C6 13 (fun _ => 0) [10] [CatType.i8] 1 3 (List.replicate 120 0) 2 0 (by decide)
    (by decide) (by rfl) (by decide) (by decide) (Or.inl (by decide)) (Or.inl (by decide))

/-- Claim C8: the three partitions are processed in the fixed order test,
train, validation; a failure on the test partition makes the whole run
report that failure with the train and validation inputs never examined,
a failure on the train partition (after a successful test) does the same
for the validation input, and when all three succeed the run returns the
three outputs in order. -/
theorem claim_C8 (nI : Nat) (f16 : Nat → Nat) (embeds : List Nat) (bs : Nat)
    (files files' : String → List Nat) :
    (∀ e, split_binary_file nI f16 embeds bs (files "test_data.bin") = .error e →
      split_dataset nI f16 embeds bs files = .error e
        ∧ (files "test_data.bin" = files' "test_data.bin" →
            split_dataset nI f16 embeds bs files = split_dataset nI f16 embeds bs files'))
  ∧ (∀ a e, split_binary_file nI f16 embeds bs (files "test_data.bin") = .ok a →
      split_binary_file nI f16 embeds bs (files "train_data.bin") = .error e →
      split_dataset nI f16 embeds bs files = .error e
        ∧ (files "test_data.bin" = files' "test_data.bin" →
           files "train_data.bin" = files' "train_data.bin" →
           split_dataset nI f16 embeds bs files = split_dataset nI f16 embeds bs files'))
  ∧ (∀ a b c, split_binary_file nI f16 embeds bs (files "test_data.bin") = .ok a →
      split_binary_file nI f16 embeds bs (files "train_data.bin") = .ok b →
      split_binary_file nI f16 embeds bs (files "validation_data.bin") = .ok c →
      split_dataset nI f16 embeds bs files = .ok (a, b, c)) := by
  refine ⟨?_, ?_, ?_⟩
  · intro e h
    constructor
    · simp only [split_dataset, h]
    · intro hag
      simp only [split_dataset, ← hag, h]
  · intro a e hta htr
    constructor
    · simp only [split_dataset, hta, htr]
    · intro hag1 hag2
      simp only [split_dataset, ← hag1, ← hag2, hta, htr]
  · intro a b c h1 h2 h3
    simp only [split_dataset, h1, h2, h3]

set_option maxRecDepth 10000 in
/-- Witness for C8: with every partition file being the same invalid
61-byte input, the test partition fails first and its error is the result
of the whole run. -/
theorem claim_C8_witness :
    split_dataset 13 (fun _ => 0) [10] 2 (fun _ => List.replicate 61 0)
      = .error "buffer size must be a multiple of element size" :=
  ((claim_C8 13 (fun _ => 0) [10] 2 (fun _ => List.replicate 61 0)
      (fun _ => List.replicate 61 0)).1
    "buffer size must be a multiple of element size" (by rfl)).1

/-- Claim C10: a categorical slot whose feature was assigned width `w`
bits is written as its 32-bit pattern reduced modulo `2 ^ w`; read back
as a signed `w`-bit value this is the two's-complement reduction of the
raw signed value (congruent modulo `2 ^ w` and within the signed `w`-bit
range), and out-of-range raw values never cause a failure: whether a call
succeeds depends only on the schema and the input length, not on the
stored values. -/
theorem claim_C10 (nI : Nat) (f16 : Nat → Nat) (catSizes : List Nat) (bs : Nat)
    (c : Nat) (t : CatType) (p : Nat) (file file' : List Nat)
    (ht : get_categorical_feature_type c = .ok t) (hp : p < 2 ^ 32)
    (hfl : file.length = file'.length) :
    (castBytes t p).length = t.nbytes
  ∧ leValue (castBytes t p) = p % 2 ^ (8 * t.nbytes)
  ∧ Int.ModEq (2 ^ (8 * t.nbytes)) (toSigned (8 * t.nbytes) (p % 2 ^ (8 * t.nbytes)))
      (toSigned 32 p)
  ∧ -(2:Int) ^ (8 * t.nbytes - 1) ≤ toSigned (8 * t.nbytes) (p % 2 ^ (8 * t.nbytes))
  ∧ toSigned (8 * t.nbytes) (p % 2 ^ (8 * t.nbytes)) < 2 ^ (8 * t.nbytes - 1)
  ∧ isOkExc (split_binary_file nI f16 catSizes bs file)
      = isOkExc (split_binary_file nI f16 catSizes bs file') := by
  refine ⟨castBytes_length t p, leValue_castBytes t p, ?_, ?_, ?_,
    split_binary_file_isOk_of_length nI f16 catSizes bs file file' hfl⟩
  · unfold Int.ModEq toSigned
    cases t <;> simp only [CatType.nbytes] <;> norm_num <;> split_ifs <;> omega
  · unfold toSigned
    cases t <;> simp only [CatType.nbytes] <;> norm_num <;> split_ifs <;> omega
  · unfold toSigned
    cases t <;> simp only [CatType.nbytes] <;> norm_num <;> split_ifs <;> omega

/-- Witness for C10: the spec's example raw value 300 in a feature of
bound 100 (8-bit width) is written as 300 mod 256 = 44, and value
irrelevance of success on two equal-length files. -/
theorem claim_C10_witness :
    (castBytes .i8 300).length = CatType.nbytes .i8
  ∧ leValue (castBytes .i8 300) = 300 % 2 ^ (8 * CatType.nbytes .i8)
  ∧ Int.ModEq (2 ^ (8 * CatType.nbytes .i8))
      (toSigned (8 * CatType.nbytes .i8) (300 % 2 ^ (8 * CatType.nbytes .i8)))
      (toSigned 32 300)
  ∧ -(2:Int) ^ (8 * CatType.nbytes .i8 - 1)
      ≤ toSigned (8 * CatType.nbytes .i8) (300 % 2 ^ (8 * CatType.nbytes .i8))
  ∧ toSigned (8 * CatType.nbytes .i8) (300 % 2 ^ (8 * CatType.nbytes .i8))
      < 2 ^ (8 * CatType.nbytes .i8 - 1)
  ∧ isOkExc (split_binary_file 13 (fun _ => 0) [100] 2 (List.replicate 61 0))
      = isOkExc (split_binary_file 13 (fun _ => 0) [100] 2 (List.replicate 61 1)) :=
  claim_C10 13 (fun _ => 0) [100] 2 100 .i8 300 (List.replicate 61 0) (List.replicate 61 1)
    (by rfl) (by decide) (by decide)

end SplitBinaryDataset
